import Mathlib

/-!
Verification of the farmOS.js API client (`src/index.js`).

The client is shallowly embedded: pure string utilities become Lean
functions on `String`; the network is an oracle (a function supplied as a
parameter, standing for the HTTP server / the axios and simple-oauth2
collaborators); the two pieces of per-instance mutable state
(`farm.token`, `farm.csrfToken`) become an explicit `FarmState` record
threaded through the functions; recursive promise chains whose depth is
not structurally bounded (`requestAll`, `batchRequest`) take an explicit
fuel argument, with the wrapper instantiating fuel large enough that it is
never exhausted on the executions the source can perform.
-/

namespace FarmOS

set_option maxRecDepth 8000

/-! ## Query builder (`appendParam`, `appendArrayOfParams`, src/index.js:122-138) -/

/-- Embedding of the JS test `endpoint.endsWith('?')`: does the string end
with the character `?`. -/
def endsQ (s : String) : Bool :=
  match s.data.getLast? with
  | some c => c == '?'
  | none => false

/-- `appendParam(name, value)(endpoint)` from src/index.js:122-128.
JS `undefined` is `none`; the template-literal stringification of a defined
value is pre-applied, so defined values are strings.  The source is the
nested ternary
`(endsWith('?') && value !== undefined) ? e+name=value
 : (value !== undefined) ? e+'&'+name=value : e`. -/
def appendParam (name : String) (value : Option String) (endpoint : String) : String :=
  match value with
  | none => endpoint
  | some v =>
    if endsQ endpoint then endpoint ++ name ++ "=" ++ v
    else endpoint ++ "&" ++ name ++ "=" ++ v

/-- `appendArrayOfParams(name, arr)(endpoint)` from src/index.js:131-138:
`arr.reduce((acc, cur, i) => appendParam(name[i], cur)(acc), endpoint)`,
i.e. an indexed left fold of `appendParam`; `undefined` array is `none`. -/
def appendArrayOfParams (name : String) (arr : Option (List String)) (endpoint : String) : String :=
  match arr with
  | none => endpoint
  | some l =>
    l.enum.foldl
      (fun acc iv => appendParam (name ++ "[" ++ toString iv.1 ++ "]") (some iv.2) acc)
      endpoint

/-- Claim C4: `appendParam(n, undefined)` leaves the endpoint unchanged, and
for a defined value `v` it appends exactly the one pair `n=v`, preceded by
`&` unless the endpoint ends with `?`. -/
theorem appendParam_spec (e n : String) :
    appendParam n none e = e ∧
    ∀ v : String, appendParam n (some v) e =
      if endsQ e then e ++ n ++ "=" ++ v else e ++ "&" ++ n ++ "=" ++ v :=
  ⟨rfl, fun _ => rfl⟩

/-! ## Pagination walker (`requestAll`, src/index.js:100-111) -/

/-- A page response as consumed by `requestAll`: a `list` of items together
with the last-page number.  In the source the last page is carried as the
`page` query parameter of the response's `last` URL and is extracted with
the external `new URL(...).searchParams.get('page')` builtin; the oracle
hands over the already-extracted number. -/
structure Page (α : Type) where
  list : List α
  lastPage : Nat

/-- `requestAll(url, page, list)` from src/index.js:100-111.  The network is
the oracle `server`, indexed by the page number requested (the actual
request URL is `url&page=` followed by the page number, for the fixed `url`
of one walk).  The JS recursion has no structural bound, so an explicit
`fuel` counts the remaining allowed requests: `none` means the walk did not
finish within `fuel` requests, and each recursive call consumes exactly one
unit of fuel, i.e. issues exactly one request. -/
def requestAll (server : Nat → Page α) : Nat → Nat → List α → Option (List α)
  | 0, _, _ => none
  | fuel + 1, page, list =>
    let r := server page
    if page = r.lastPage then some (list ++ r.list)
    else requestAll server fuel (page + 1) (list ++ r.list)

/-- `pageSeg server p k` is the concatenation, in page order, of the `list`
fields of the `k` consecutive page responses starting at page `p`. -/
def pageSeg (server : Nat → Page α) : Nat → Nat → List α
  | _, 0 => []
  | p, k + 1 => (server p).list ++ pageSeg server (p + 1) k

theorem requestAll_seg (server : Nat → Page α) (N : Nat)
    (hlast : ∀ p, p < N → (server p).lastPage = N - 1) :
    ∀ fuel page acc, page < N → N ≤ page + fuel →
      requestAll server fuel page acc = some (acc ++ pageSeg server page (N - page)) := by
  intro fuel
  induction fuel with
  | zero => intro page acc h1 h2; omega
  | succ fuel ih =>
    intro page acc h1 h2
    rw [requestAll]
    simp only [hlast page h1]
    by_cases hstop : page = N - 1
    · have hN : N - page = 1 := by omega
      rw [if_pos hstop, hN, pageSeg, pageSeg, List.append_nil]
    · have hlt : page + 1 < N := by omega
      have hfuel : N ≤ page + 1 + fuel := by omega
      have hsucc : N - page = (N - (page + 1)) + 1 := by omega
      simp only [if_neg hstop]
      rw [ih (page + 1) (acc ++ (server page).list) hlt hfuel, hsucc, pageSeg,
        List.append_assoc]

/-- Claim C2: if every one of the `N` page responses reports last page
`N - 1` (zero-based), then `requestAll`, started at page 0, returns exactly
the concatenation of all `N` pages' `list` fields in page order (and `N`
units of fuel — `N` requests — suffice). -/
theorem requestAll_concat_all_pages (server : Nat → Page α) (N : Nat)
    (hN : 0 < N) (hlast : ∀ p, p < N → (server p).lastPage = N - 1) :
    requestAll server N 0 [] = some (pageSeg server 0 N) := by
  have h := requestAll_seg server N hlast N 0 [] hN (by omega)
  simpa using h

/-- Witness for C2: a concrete two-page server. -/
theorem requestAll_concat_all_pages_witness :
    requestAll (fun p => Page.mk [p] 1) 2 0 [] =
      some (pageSeg (fun p => Page.mk [p] 1) 0 2) :=
  requestAll_concat_all_pages (fun p => Page.mk [p] 1) 2 (by decide) (fun p _ => rfl)

theorem requestAll_terminates_at (server : Nat → Page α) (P : Nat)
    (hP : (server P).lastPage = P) :
    ∀ k page acc, page ≤ P → P ≤ page + k →
      ∃ res, requestAll server (k + 1) page acc = some res := by
  intro k
  induction k with
  | zero =>
    intro page acc h1 h2
    have hpage : page = P := by omega
    subst hpage
    exact ⟨acc ++ (server page).list, by rw [requestAll, if_pos hP.symm]⟩
  | succ k ih =>
    intro page acc h1 h2
    rw [requestAll]
    by_cases hstop : page = (server page).lastPage
    · exact ⟨acc ++ (server page).list, by rw [if_pos hstop]⟩
    · have hlt : page < P := by
        rcases Nat.lt_or_ge page P with h | h
        · exact h
        · exact absurd (by omega : page = P) (fun hp => hstop (by rw [hp, hP]))
      simp only [if_neg hstop]
      exact ih (page + 1) (acc ++ (server page).list) (by omega) (by omega)

theorem requestAll_const_short_fuel (server : Nat → Page α) (L : Nat)
    (hconst : ∀ q, (server q).lastPage = L) :
    ∀ fuel page acc, fuel ≤ L - page → requestAll server fuel page acc = none := by
  intro fuel
  induction fuel with
  | zero => intro page acc _; rfl
  | succ fuel ih =>
    intro page acc hle
    have hne : page ≠ (server page).lastPage := by rw [hconst]; omega
    rw [requestAll]
    simp only [if_neg hne]
    exact ih (page + 1) (acc ++ (server page).list) (by omega)

theorem requestAll_diverges (α : Type) :
    ∀ fuel page acc,
      requestAll (fun p => Page.mk ([] : List α) (p + 1)) fuel page acc = none := by
  intro fuel
  induction fuel with
  | zero => intro page acc; rfl
  | succ fuel ih =>
    intro page acc
    rw [requestAll]
    simp only [if_neg (by omega : ¬page = page + 1)]
    exact ih (page + 1) _

/-- Claim C3: (i) if the server's reported last page is non-decreasing from
the start page onward and at some page `P` at or after the start it equals
the requested page, the walk terminates (some amount of fuel yields a
result); (ii) if every response reports the same last page `L ≥ page`, the
walk terminates after exactly `L - page + 1` requests: fuel `L - page + 1`
(one unit per request) succeeds and fuel `L - page` is exhausted first;
(iii) without such a hypothesis the recursion need not terminate: a server
always reporting `lastPage = page + 1` makes every amount of fuel run out. -/
theorem requestAll_termination (server : Nat → Page α) (page : Nat) (acc : List α) (L : Nat) :
    ((∀ p q, page ≤ p → p ≤ q → (server p).lastPage ≤ (server q).lastPage) →
      (∃ P, page ≤ P ∧ (server P).lastPage = P) →
      ∃ fuel res, requestAll server fuel page acc = some res) ∧
    ((∀ q, (server q).lastPage = L) → page ≤ L →
      (∃ res, requestAll server (L - page + 1) page acc = some res) ∧
      requestAll server (L - page) page acc = none) ∧
    ∃ bad : Nat → Page α, ∀ fuel p acc2, requestAll bad fuel p acc2 = none := by
  refine ⟨?_, ?_, ?_⟩
  · intro _ ⟨P, hP, hlast⟩
    obtain ⟨res, hres⟩ :=
      requestAll_terminates_at server P hlast (P - page) page acc hP (by omega)
    exact ⟨P - page + 1, res, hres⟩
  · intro hconst hle
    constructor
    · have h := requestAll_terminates_at server L (hconst L) (L - page) page acc hle (by omega)
      exact h
    · exact requestAll_const_short_fuel server L hconst (L - page) page acc (by omega)
  · exact ⟨fun p => Page.mk [] (p + 1), requestAll_diverges α⟩

/-- Witness for C3: a server constantly reporting last page 3, walk started
at page 1, terminates with fuel 3 and not with fuel 2. -/
theorem requestAll_termination_witness :
    (∃ fuel res, requestAll (fun _ => Page.mk [(1 : Nat)] 3) fuel 1 [] = some res) ∧
    requestAll (fun _ => Page.mk [(1 : Nat)] 3) (3 - 1) 1 [] = none := by
  have h := requestAll_termination (fun _ => Page.mk [(1 : Nat)] 3) 1 [] 3
  exact ⟨h.1 (fun p q _ _ => le_refl _) ⟨3, by omega, rfl⟩,
    (h.2.1 (fun _ => rfl) (by omega)).2⟩

/-! ## Batch walker (`batchRequest`, src/index.js:141-154) -/

/-- Concatenation of the server's response lists for a list of queries, in
order. -/
def servAll (server : String → List β) : List String → List β
  | [] => []
  | q :: qs => server q ++ servAll server qs

/-- The queries issued by `batchRequest(name, arr, endpoint)`, in request
order, mirroring the control flow of src/index.js:141-154: one query over
the whole of `arr` when `arr.length <= 100`, otherwise a query over the
first 99 elements (`arr.slice(0, 99)`) followed by the queries for the rest
(`arr.slice(99)`).  `fuel` bounds the recursion depth (each step consumes
at least 99 elements, so `arr.length + 1` units always suffice). -/
def batchQueriesAux (name endpoint : String) : Nat → List String → List String
  | 0, _ => []
  | fuel + 1, arr =>
    if arr.length ≤ 100 then [appendArrayOfParams name (some arr) endpoint]
    else appendArrayOfParams name (some (arr.take 99)) endpoint ::
      batchQueriesAux name endpoint fuel (arr.drop 99)

/-- `batchRequest(name, arr, endpoint, results)` from src/index.js:141-154.
The network is the oracle `server`, mapping the query string of a request
to the `list` field of its response.  Note the recursive call passes
`_res.list` — the current response's list — as the new `results`,
discarding the accumulated `results` argument, exactly as the source does.
`fuel` bounds the recursion depth as in `batchQueriesAux`. -/
def batchRequestAux (server : String → List β) (name endpoint : String) :
    Nat → List String → List β → List β
  | 0, _, results => results
  | fuel + 1, arr, results =>
    if arr.length ≤ 100 then
      results ++ server (appendArrayOfParams name (some arr) endpoint)
    else
      batchRequestAux server name endpoint fuel (arr.drop 99)
        (server (appendArrayOfParams name (some (arr.take 99)) endpoint))

def batchRequest (server : String → List β) (name : String) (arr : List String)
    (endpoint : String) (results : List β) : List β :=
  batchRequestAux server name endpoint (arr.length + 1) arr results

def batchQueries (name : String) (arr : List String) (endpoint : String) : List String :=
  batchQueriesAux name endpoint (arr.length + 1) arr

theorem batchQueriesAux_length (name endpoint : String) :
    ∀ fuel arr, arr.length < fuel →
      (batchQueriesAux name endpoint fuel arr).length = max 1 ((arr.length + 97) / 99) := by
  intro fuel
  induction fuel with
  | zero => intro arr h; omega
  | succ fuel ih =>
    intro arr h
    by_cases h100 : arr.length ≤ 100
    · rw [batchQueriesAux, if_pos h100]
      simp only [List.length_singleton]
      omega
    · rw [batchQueriesAux, if_neg h100]
      have hd : (arr.drop 99).length = arr.length - 99 := by simp
      have := ih (arr.drop 99) (by omega)
      rw [List.length_cons, this, hd]
      omega

theorem batchRequestAux_eq (server : String → List β) (name endpoint : String) :
    ∀ fuel arr results, arr.length < fuel →
      batchRequestAux server name endpoint fuel arr results =
        (if arr.length ≤ 100 then results else []) ++
          servAll server ((batchQueriesAux name endpoint fuel arr).drop
            ((batchQueriesAux name endpoint fuel arr).length - 2)) := by
  intro fuel
  induction fuel with
  | zero => intro arr results h; omega
  | succ fuel ih =>
    intro arr results h
    by_cases h100 : arr.length ≤ 100
    · rw [batchRequestAux, batchQueriesAux, if_pos h100, if_pos h100, if_pos h100]
      simp [servAll]
    · have hd : (arr.drop 99).length = arr.length - 99 := by simp
      have hlen' : (batchQueriesAux name endpoint fuel (arr.drop 99)).length =
          max 1 ((arr.length - 99 + 97) / 99) := by
        rw [batchQueriesAux_length name endpoint fuel (arr.drop 99) (by omega), hd]
      rw [batchRequestAux, batchQueriesAux, if_neg h100, if_neg h100, if_neg h100,
        ih (arr.drop 99) _ (by omega)]
      by_cases h199 : arr.length - 99 ≤ 100
      · have h1 : (batchQueriesAux name endpoint fuel (arr.drop 99)).length = 1 := by
          rw [hlen']; omega
        rw [hd, if_pos h199, h1, List.length_cons, h1]
        simp [servAll]
      · have h2 : 2 ≤ (batchQueriesAux name endpoint fuel (arr.drop 99)).length := by
          rw [hlen']; omega
        rw [hd, if_neg h199, List.length_cons]
        have hidx : (batchQueriesAux name endpoint fuel (arr.drop 99)).length + 1 - 2 =
            ((batchQueriesAux name endpoint fuel (arr.drop 99)).length - 2) + 1 := by omega
        rw [hidx, List.drop_succ_cons]

/-- Claim C1 counterexample: (a) for an array of 100 elements a single
request is issued, not `ceil(100/99) = 2`; (b) for an array of 298 elements
(three requests, each response a one-element list) the returned list has 2
elements, not the 3 that the full concatenation of all per-request
responses would have — the recursive call discards the accumulated
`results`, so only the last two responses survive. -/
theorem batchRequest_claim_counterexample :
    ¬ ((batchQueries "id" (List.replicate 100 "0") "/log.json?").length = (100 + 98) / 99) ∧
    ¬ (batchRequest (fun _ => [(0 : Nat)]) "id" (List.replicate 298 "0") "/log.json?" [] =
        servAll (fun _ => [(0 : Nat)])
          (batchQueries "id" (List.replicate 298 "0") "/log.json?")) := by
  constructor <;> decide

/-- Claim C1 (amended): for `arr.length > 99`, `batchRequest` issues
`max 1 ((arr.length + 97) / 99)` sequential requests (one if
`arr.length ≤ 100`, else one per slice of 99 plus one for the final slice
of at most 100), and the returned list is the concatenation of the
responses of only the last (at most two) requests: the last response's list
appended to the second-to-last response's list when at least two requests
are made (the initial `results` and all earlier responses are discarded),
or `results` followed by the single response's list otherwise. -/
theorem batchRequest_amended (server : String → List β) (name endpoint : String)
    (arr : List String) (results : List β) (h : 99 < arr.length) :
    (batchQueries name arr endpoint).length = max 1 ((arr.length + 97) / 99) ∧
    batchRequest server name arr endpoint results =
      (if arr.length ≤ 100 then results else []) ++
        servAll server ((batchQueries name arr endpoint).drop
          ((batchQueries name arr endpoint).length - 2)) :=
  ⟨batchQueriesAux_length name endpoint (arr.length + 1) arr (by omega),
   batchRequestAux_eq server name endpoint (arr.length + 1) arr results (by omega)⟩

/-- Witness for the amended C1 at a concrete 150-element array. -/
theorem batchRequest_amended_witness :
    (batchQueries "id" (List.replicate 150 "0") "/log.json?").length =
      max 1 (((List.replicate 150 "0").length + 97) / 99) ∧
    batchRequest (fun _ => [(0 : Nat)]) "id" (List.replicate 150 "0") "/log.json?" [] =
      (if (List.replicate 150 "0").length ≤ 100 then ([] : List Nat) else []) ++
        servAll (fun _ => [(0 : Nat)])
          ((batchQueries "id" (List.replicate 150 "0") "/log.json?").drop
            ((batchQueries "id" (List.replicate 150 "0") "/log.json?").length - 2)) :=
  batchRequest_amended (fun _ => [(0 : Nat)]) "id" "/log.json?"
    (List.replicate 150 "0") [] (by decide)

/-! ## Composability of query appends (claim C5) -/

/-- One application of the query builder: `appendParam name value` with a
defined value, or `appendArrayOfParams name arr` with a defined array. -/
inductive QOp where
  | param (name value : String)
  | arrayOf (name : String) (arr : List String)
deriving DecidableEq

def applyQOp : QOp → String → String
  | .param n v, e => appendParam n (some v) e
  | .arrayOf n l, e => appendArrayOfParams n (some l) e

/-- Apply a sequence of query-builder operations to an endpoint, first
operation first. -/
def applyQOps (ops : List QOp) (e : String) : String :=
  ops.foldl (fun acc op => applyQOp op acc) e

/-- The key-value pair string `name=value`. -/
def pairOf (name v : String) : String := name ++ "=" ++ v

/-- The pair strings one operation contributes: `name=value` for
`appendParam`, and `name[i]=value` for each array element. -/
def pairsOfOp : QOp → List String
  | .param n v => [pairOf n v]
  | .arrayOf n l => l.enum.map (fun iv => pairOf (n ++ "[" ++ toString iv.1 ++ "]") iv.2)

/-- All pair strings a sequence of operations contributes, in order. -/
def qpairs : List QOp → List String
  | [] => []
  | op :: ops => pairsOfOp op ++ qpairs ops

def qopName : QOp → String
  | .param n _ => n
  | .arrayOf n _ => n

/-- Pair strings each preceded by the separator `&`. -/
def joinAmp : List String → String
  | [] => ""
  | p :: ps => "&" ++ p ++ joinAmp ps

/-- The endpoint followed by the given pair strings separated by `&`, the
first separator omitted when the endpoint ends with `?`. -/
def renderQ (e : String) : List String → String
  | [] => e
  | p :: ps => (if endsQ e then e ++ p else e ++ "&" ++ p) ++ joinAmp ps

theorem pairOf_data_ne_nil (n v : String) : (pairOf n v).data ≠ [] := by
  simp [pairOf, String.data_append]

theorem endsQ_append (e p : String) (hp : p.data ≠ []) : endsQ (e ++ p) = endsQ p := by
  unfold endsQ
  rw [String.data_append, List.getLast?_append]
  cases hl : p.data.getLast? with
  | none => exact absurd (List.getLast?_eq_none_iff.mp hl) hp
  | some c => rfl

theorem joinAmp_append (a b : List String) : joinAmp (a ++ b) = joinAmp a ++ joinAmp b := by
  induction a with
  | nil => rw [List.nil_append, joinAmp, String.empty_append]
  | cons p a ih =>
    rw [List.cons_append, joinAmp, joinAmp, ih]
    simp [String.append_assoc]

theorem renderQ_noQ (e : String) (ps : List String) (he : endsQ e = false) :
    renderQ e ps = e ++ joinAmp ps := by
  cases ps with
  | nil => rw [renderQ, joinAmp, String.append_empty]
  | cons p ps =>
    rw [renderQ, joinAmp, if_neg (by rw [he]; exact Bool.false_ne_true)]
    simp [String.append_assoc]

theorem appendParam_noQ (n v e : String) (he : endsQ e = false)
    (hv : endsQ (pairOf n v) = false) :
    appendParam n (some v) e = e ++ ("&" ++ pairOf n v) ∧
    endsQ (appendParam n (some v) e) = false := by
  have heq : appendParam n (some v) e = e ++ ("&" ++ pairOf n v) := by
    rw [appendParam, if_neg (by rw [he]; exact Bool.false_ne_true), pairOf]
    simp [String.append_assoc]
  refine ⟨heq, ?_⟩
  rw [heq, endsQ_append e _ (by simp [pairOf, String.data_append]),
    endsQ_append "&" _ (pairOf_data_ne_nil n v), hv]

theorem appendParam_fromQ (n v e : String) (he : endsQ e = true)
    (hv : endsQ (pairOf n v) = false) :
    appendParam n (some v) e = e ++ pairOf n v ∧
    endsQ (appendParam n (some v) e) = false := by
  have heq : appendParam n (some v) e = e ++ pairOf n v := by
    rw [appendParam, if_pos he, pairOf]
    simp [String.append_assoc]
  refine ⟨heq, ?_⟩
  rw [heq, endsQ_append e _ (pairOf_data_ne_nil n v), hv]

/-- The indexed fold inside `appendArrayOfParams`, generalized to an
arbitrary list of (index, value) pairs, starting from an endpoint that does
not end with `?`. -/
theorem foldIdx_noQ (n : String) :
    ∀ (pl : List (Nat × String)) (e : String), endsQ e = false →
      (∀ iv ∈ pl, endsQ (pairOf (n ++ "[" ++ toString iv.1 ++ "]") iv.2) = false) →
      pl.foldl (fun acc iv => appendParam (n ++ "[" ++ toString iv.1 ++ "]") (some iv.2) acc) e =
        e ++ joinAmp (pl.map (fun iv => pairOf (n ++ "[" ++ toString iv.1 ++ "]") iv.2)) ∧
      endsQ (pl.foldl
        (fun acc iv => appendParam (n ++ "[" ++ toString iv.1 ++ "]") (some iv.2) acc) e) = false := by
  intro pl
  induction pl with
  | nil =>
    intro e he _
    exact ⟨by rw [List.foldl_nil, List.map_nil, joinAmp, String.append_empty], by
      rw [List.foldl_nil]; exact he⟩
  | cons iv pl ih =>
    intro e he hv
    have hp := appendParam_noQ (n ++ "[" ++ toString iv.1 ++ "]") iv.2 e he
      (hv iv (List.mem_cons_self iv pl))
    rw [List.foldl_cons, List.map_cons, joinAmp]
    have ihe := ih (appendParam (n ++ "[" ++ toString iv.1 ++ "]") (some iv.2) e) hp.2
      (fun jv hjv => hv jv (List.mem_cons_of_mem iv hjv))
    refine ⟨?_, ihe.2⟩
    rw [ihe.1, hp.1]
    simp [String.append_assoc]

/-- The same fold started from an endpoint that ends with `?`: the first
pair is appended without a separator. -/
theorem foldIdx_fromQ (n : String) (pl : List (Nat × String)) (e : String)
    (he : endsQ e = true)
    (hv : ∀ iv ∈ pl, endsQ (pairOf (n ++ "[" ++ toString iv.1 ++ "]") iv.2) = false) :
    pl.foldl (fun acc iv => appendParam (n ++ "[" ++ toString iv.1 ++ "]") (some iv.2) acc) e =
      renderQ e (pl.map (fun iv => pairOf (n ++ "[" ++ toString iv.1 ++ "]") iv.2)) ∧
    (pl = [] → endsQ (pl.foldl
      (fun acc iv => appendParam (n ++ "[" ++ toString iv.1 ++ "]") (some iv.2) acc) e) = true) ∧
    (pl ≠ [] → endsQ (pl.foldl
      (fun acc iv => appendParam (n ++ "[" ++ toString iv.1 ++ "]") (some iv.2) acc) e) = false) := by
  cases pl with
  | nil =>
    exact ⟨by rw [List.foldl_nil, List.map_nil, renderQ], fun _ => by rw [List.foldl_nil]; exact he,
      fun h => absurd rfl h⟩
  | cons iv pl =>
    have hp := appendParam_fromQ (n ++ "[" ++ toString iv.1 ++ "]") iv.2 e he
      (hv iv (List.mem_cons_self iv pl))
    have ihe := foldIdx_noQ n pl (appendParam (n ++ "[" ++ toString iv.1 ++ "]") (some iv.2) e)
      hp.2 (fun jv hjv => hv jv (List.mem_cons_of_mem iv hjv))
    refine ⟨?_, fun h => absurd h (List.cons_ne_nil iv pl), fun _ => ihe.2⟩
    rw [List.foldl_cons, List.map_cons, renderQ, if_pos he, ihe.1, hp.1]

theorem applyQOp_noQ (op : QOp) (e : String) (he : endsQ e = false)
    (hv : ∀ p ∈ pairsOfOp op, endsQ p = false) :
    applyQOp op e = e ++ joinAmp (pairsOfOp op) ∧ endsQ (applyQOp op e) = false := by
  cases op with
  | param n v =>
    have hp := appendParam_noQ n v e he (hv _ (by rw [pairsOfOp]; exact List.mem_singleton_self _))
    refine ⟨?_, hp.2⟩
    rw [applyQOp, hp.1, pairsOfOp, joinAmp, joinAmp, String.append_empty]
  | arrayOf n l =>
    have h := foldIdx_noQ n l.enum e he (fun iv hiv => hv _ (by rw [pairsOfOp]; exact List.mem_map_of_mem _ hiv))
    exact ⟨h.1, h.2⟩

theorem applyQOp_fromQ (op : QOp) (e : String) (he : endsQ e = true)
    (hv : ∀ p ∈ pairsOfOp op, endsQ p = false) :
    applyQOp op e = renderQ e (pairsOfOp op) ∧
    (pairsOfOp op = [] → endsQ (applyQOp op e) = true) ∧
    (pairsOfOp op ≠ [] → endsQ (applyQOp op e) = false) := by
  cases op with
  | param n v =>
    have hp := appendParam_fromQ n v e he (hv _ (by rw [pairsOfOp]; exact List.mem_singleton_self _))
    refine ⟨?_, fun h => absurd h (by rw [pairsOfOp]; exact List.cons_ne_nil _ _), fun _ => hp.2⟩
    rw [applyQOp, hp.1, pairsOfOp, renderQ, if_pos he, joinAmp, String.append_empty]
  | arrayOf n l =>
    have h := foldIdx_fromQ n l.enum e he
      (fun iv hiv => hv _ (by rw [pairsOfOp]; exact List.mem_map_of_mem _ hiv))
    refine ⟨h.1, fun hnil => h.2.1 ?_, fun hne => h.2.2 ?_⟩
    · rw [pairsOfOp] at hnil
      exact List.map_eq_nil_iff.mp hnil
    · intro hcon
      exact hne (by rw [pairsOfOp, hcon, List.map_nil])

theorem applyQOps_noQ :
    ∀ (ops : List QOp) (e : String), endsQ e = false →
      (∀ p ∈ qpairs ops, endsQ p = false) →
      applyQOps ops e = e ++ joinAmp (qpairs ops) ∧ endsQ (applyQOps ops e) = false := by
  intro ops
  induction ops with
  | nil =>
    intro e he _
    exact ⟨by rw [applyQOps, List.foldl_nil, qpairs, joinAmp, String.append_empty], he⟩
  | cons op ops ih =>
    intro e he hv
    have hop := applyQOp_noQ op e he
      (fun p hp => hv p (by rw [qpairs]; exact List.mem_append_left _ hp))
    have ihe := ih (applyQOp op e) hop.2
      (fun p hp => hv p (by rw [qpairs]; exact List.mem_append_right _ hp))
    have hfold : applyQOps (op :: ops) e = applyQOps ops (applyQOp op e) := rfl
    refine ⟨?_, by rw [hfold]; exact ihe.2⟩
    rw [hfold, ihe.1, hop.1, qpairs, joinAmp_append, String.append_assoc]

theorem applyQOps_fromQ :
    ∀ (ops : List QOp) (e : String), endsQ e = true →
      (∀ p ∈ qpairs ops, endsQ p = false) →
      applyQOps ops e = renderQ e (qpairs ops) := by
  intro ops
  induction ops with
  | nil => intro e _ _; rfl
  | cons op ops ih =>
    intro e he hv
    have hfold : applyQOps (op :: ops) e = applyQOps ops (applyQOp op e) := rfl
    have hvop : ∀ p ∈ pairsOfOp op, endsQ p = false :=
      fun p hp => hv p (by rw [qpairs]; exact List.mem_append_left _ hp)
    have hvrest : ∀ p ∈ qpairs ops, endsQ p = false :=
      fun p hp => hv p (by rw [qpairs]; exact List.mem_append_right _ hp)
    have hop := applyQOp_fromQ op e he hvop
    cases hpop : pairsOfOp op with
    | nil =>
      have he' : applyQOp op e = e := by rw [hop.1, hpop, renderQ]
      rw [hfold, he', ih e he hvrest, qpairs, hpop, List.nil_append]
    | cons q qs =>
      have hQfalse : endsQ (applyQOp op e) = false := hop.2.2 (by rw [hpop]; exact List.cons_ne_nil _ _)
      have hrest := applyQOps_noQ ops (applyQOp op e) hQfalse hvrest
      rw [hfold, hrest.1, hop.1, hpop, qpairs, hpop, renderQ, if_pos he, List.cons_append,
        renderQ, if_pos he, joinAmp_append, String.append_assoc]

theorem qpairs_perm {ops ops' : List QOp} (h : ops'.Perm ops) :
    (qpairs ops').Perm (qpairs ops) := by
  induction h with
  | nil => exact List.Perm.refl _
  | cons x _ ih => exact List.Perm.append_left (pairsOfOp x) ih
  | swap x y l =>
    rw [qpairs, qpairs, qpairs, qpairs, ← List.append_assoc, ← List.append_assoc]
    exact List.Perm.append_right _ List.perm_append_comm
  | trans _ _ ih1 ih2 => exact ih1.trans ih2

theorem perm_pair_cases {α : Type} {x y : α} :
    ∀ {l : List α}, l.Perm [x, y] → l = [x, y] ∨ l = [y, x] := by
  intro l h
  have hlen := h.length_eq
  match l, hlen with
  | [u, v], _ =>
    have hu : u ∈ [x, y] := h.subset (List.mem_cons_self u [v])
    rcases List.mem_pair.mp hu with hx | hy
    · left
      have h2 : List.Perm [v] [y] := by
        rw [hx] at h
        exact h.cons_inv
      have hv : v = y := by simpa using List.perm_singleton.mp h2
      rw [hx, hv]
    · right
      have h2 : List.Perm [v] [x] := by
        rw [hy] at h
        exact (h.trans (List.Perm.swap y x [])).cons_inv
      have hv : v = x := by simpa using List.perm_singleton.mp h2
      rw [hy, hv]

/-- Claim C5 counterexample: with endpoint `/log.json?` and the two
appends `a=1?` then `b=2` (distinct names, defined values), the produced
string `/log.json?a=1?b=2` is not the endpoint followed by the two pairs in
either order with `&` separators — because the first value ends with `?`,
the second append sees an endpoint ending in `?` and omits its `&`. -/
theorem appendOrder_claim_counterexample :
    ¬ ∃ ps : List String,
        ps.Perm (qpairs [QOp.param "a" "1?", QOp.param "b" "2"]) ∧
        applyQOps [QOp.param "a" "1?", QOp.param "b" "2"] "/log.json?" =
          renderQ "/log.json?" ps := by
  intro ⟨ps, hperm, heq⟩
  have hq : qpairs [QOp.param "a" "1?", QOp.param "b" "2"] = ["a=1?", "b=2"] := rfl
  rw [hq] at hperm
  rcases perm_pair_cases hperm with hcase | hcase <;> rw [hcase] at heq <;>
    exact absurd heq (by decide)

/-- Claim C5 (amended): applying a finite sequence of `appendParam` /
`appendArrayOfParams` operations with distinct parameter names and defined
values in any order yields the endpoint followed by each contributed
key-value pair string exactly once (as a permutation of the contributed
pairs), separated by `&` with the first separator omitted when the endpoint
ends with `?` — provided that no contributed pair string ends with the
character `?` (the counterexample shows the claim fails without this
proviso); only the order of the pairs in the string may differ between
application orders. -/
theorem appendOrder_insensitive (e : String) (ops ops' : List QOp)
    (hperm : ops'.Perm ops)
    (hnames : (ops.map qopName).Nodup)
    (hq : ∀ p ∈ qpairs ops, endsQ p = false) :
    ∃ ps : List String, ps.Perm (qpairs ops) ∧ applyQOps ops' e = renderQ e ps := by
  refine ⟨qpairs ops', qpairs_perm hperm, ?_⟩
  have hq' : ∀ p ∈ qpairs ops', endsQ p = false :=
    fun p hp => hq p ((qpairs_perm hperm).subset hp)
  cases he : endsQ e with
  | false => rw [(applyQOps_noQ ops' e he hq').1, renderQ_noQ e _ he]
  | true => exact applyQOps_fromQ ops' e he hq'

/-- Witness for the amended C5: appending `done=1` and `type[0]=a`,
`type[1]=b` in the two possible orders to `/log.json?`. -/
theorem appendOrder_insensitive_witness :
    ∃ ps : List String,
      ps.Perm (qpairs [QOp.param "done" "1", QOp.arrayOf "type" ["a", "b"]]) ∧
      applyQOps [QOp.arrayOf "type" ["a", "b"], QOp.param "done" "1"] "/log.json?" =
        renderQ "/log.json?" ps :=
  appendOrder_insensitive "/log.json?"
    [QOp.param "done" "1", QOp.arrayOf "type" ["a", "b"]]
    [QOp.arrayOf "type" ["a", "b"], QOp.param "done" "1"]
    (List.Perm.swap _ _ _) (by decide) (by decide)

/-! ## Token manager, CSRF fetcher and request executor (src/index.js:26-97) -/

/-- The token data held by the simple-oauth2 token object: its
`access_token` string and the result of its `expired()` check (abstracted
from the clock). -/
structure OAuthToken where
  access_token : String
  expired : Bool
deriving DecidableEq

/-- The per-instance mutable state of the client: `farm.token` and
`farm.csrfToken`, both initially `null` (src/index.js:184-185). -/
structure FarmState where
  token : Option OAuthToken
  csrfToken : Option String
deriving DecidableEq

/-- Errors surfaced by the request pipeline: the synchronous
`'client must be authorized before making requests.'` error, or an error
of a collaborator (OAuth refresh, axios) propagated unchanged — the
`network` constructor is only typing, the payload `e` is the original
error value. -/
inductive ClientError (ε : Type) where
  | notAuthorized
  | network (e : ε)
deriving DecidableEq

/-- `getAccessToken()` from src/index.js:26-40.  `refresh` is the oracle
for `farm.token.refresh(params)` (the authorization server).  The `Nat`
counts refresh requests issued.  On refresh success the source does
`farm.useToken(accessToken.token).access_token`: the stored token is
replaced by the new one and the new access token is returned. -/
def getAccessToken (refresh : Except ε OAuthToken) (st : FarmState) :
    Nat × Except (ClientError ε) (FarmState × String) :=
  match st.token with
  | none => (0, Except.error ClientError.notAuthorized)
  | some t =>
    if t.expired then
      match refresh with
      | Except.ok newTok =>
        (1, Except.ok ({ st with token := some newTok }, newTok.access_token))
      | Except.error e => (1, Except.error (ClientError.network e))
    else (0, Except.ok (st, t.access_token))

/-- One HTTP call as issued through axios: url, method, the
`Authorization` and `X-CSRF-Token` headers when set, and the request body
when set (`JSON.stringify` of the payload is abstracted as the payload
string itself). -/
structure HttpCall where
  url : String
  method : String
  auth : Option String
  csrf : Option String
  body : Option String
deriving DecidableEq

/-- The one GET request `getCSRFToken` can issue: the fixed session-token
endpoint with the access token as bearer credential
(src/index.js:46-55). -/
def sessionTokenCall (host accessToken : String) : HttpCall :=
  { url := host ++ "/restws/session/token", method := "GET",
    auth := some ("Bearer " ++ accessToken), csrf := none, body := none }

/-- `getCSRFToken(accessToken)` from src/index.js:44-60.  `net` is the
axios oracle; the returned list is the trace of HTTP calls issued.  The
response body `res.data` is stored into `farm.csrfToken` and returned. -/
def getCSRFToken (host : String) (net : HttpCall → Except ε String) (st : FarmState)
    (accessToken : String) : List HttpCall × Except ε (FarmState × String) :=
  match st.csrfToken with
  | some t => ([], Except.ok (st, t))
  | none =>
    match net (sessionTokenCall host accessToken) with
    | Except.ok body =>
      ([sessionTokenCall host accessToken],
        Except.ok ({ st with csrfToken := some body }, body))
    | Except.error e => ([sessionTokenCall host accessToken], Except.error e)

/-- The main HTTP call built by `request` (src/index.js:66-79, 84, 91-92):
both tokens attached as headers, and the serialized payload as body
exactly when the method is POST or PUT. -/
def mainCall (host endpoint method payload accessToken csrfToken : String) : HttpCall :=
  { url := host ++ endpoint, method := method,
    auth := some ("Bearer " ++ accessToken), csrf := some csrfToken,
    body := if method = "POST" ∨ method = "PUT" then some payload else none }

/-- `request(endpoint, {method, payload})` from src/index.js:62-97: obtain
the access token, then the CSRF token, then issue the one main HTTP call
and return the parsed response body `res.data`.  The result carries the
number of refresh requests, the trace of HTTP calls issued (in order), and
either the response data or the first error, propagated unchanged. -/
def request (host : String) (refresh : Except ε OAuthToken)
    (csrfNet : HttpCall → Except ε String) (net : HttpCall → Except ε ρ)
    (st : FarmState) (endpoint method payload : String) :
    (Nat × List HttpCall) × Except (ClientError ε) (FarmState × ρ) :=
  match getAccessToken refresh st with
  | (n, Except.error e) => ((n, []), Except.error e)
  | (n, Except.ok (st1, accessToken)) =>
    match getCSRFToken host csrfNet st1 accessToken with
    | (calls, Except.error e) => ((n, calls), Except.error (ClientError.network e))
    | (calls, Except.ok (st2, csrfToken)) =>
      match net (mainCall host endpoint method payload accessToken csrfToken) with
      | Except.ok d =>
        ((n, calls ++ [mainCall host endpoint method payload accessToken csrfToken]),
          Except.ok (st2, d))
      | Except.error e =>
        ((n, calls ++ [mainCall host endpoint method payload accessToken csrfToken]),
          Except.error (ClientError.network e))

/-- Claim C6: `getAccessToken` fails with the authentication error when no
token was ever established; returns the held token's `access_token` with
no refresh request when it is not expired; issues exactly one refresh
request when expired, on success replacing the stored token and returning
the new access token, and on failure propagating the refresh error
unchanged with no retry. -/
theorem getAccessToken_spec {ε : Type} (refresh : Except ε OAuthToken) (st : FarmState) :
    (st.token = none →
      getAccessToken refresh st = (0, Except.error ClientError.notAuthorized)) ∧
    (∀ t, st.token = some t → t.expired = false →
      getAccessToken refresh st = (0, Except.ok (st, t.access_token))) ∧
    (∀ t newTok, st.token = some t → t.expired = true → refresh = Except.ok newTok →
      getAccessToken refresh st =
        (1, Except.ok ({ st with token := some newTok }, newTok.access_token))) ∧
    (∀ t e, st.token = some t → t.expired = true → refresh = Except.error e →
      getAccessToken refresh st = (1, Except.error (ClientError.network e))) := by
  refine ⟨fun h => ?_, fun t ht hexp => ?_, fun t newTok ht hexp hr => ?_,
    fun t e ht hexp hr => ?_⟩
  · simp [getAccessToken, h]
  · simp [getAccessToken, ht, hexp]
  · simp [getAccessToken, ht, hexp, hr]
  · simp [getAccessToken, ht, hexp, hr]

/-- Witness for C6: an expired stored token and a successful refresh. -/
theorem getAccessToken_spec_witness :
    getAccessToken (ε := Unit) (Except.ok (OAuthToken.mk "new" false))
        (FarmState.mk (some (OAuthToken.mk "old" true)) none) =
      (1, Except.ok ({ FarmState.mk (some (OAuthToken.mk "old" true)) none with
          token := some (OAuthToken.mk "new" false) },
        (OAuthToken.mk "new" false).access_token)) :=
  (getAccessToken_spec (Except.ok (OAuthToken.mk "new" false))
      (FarmState.mk (some (OAuthToken.mk "old" true)) none)).2.2.1
    (OAuthToken.mk "old" true) (OAuthToken.mk "new" false) rfl rfl rfl

/-- Claim C7: `getCSRFToken` returns the cached token with no HTTP call
when one is present; otherwise it issues exactly one GET to the fixed
session-token endpoint with the access token as bearer credential, caches
the response body and returns it — and once cached, any later call (with
any oracle and any access token) returns the same token with no HTTP call
and leaves the state unchanged; a fetch failure propagates unchanged. -/
theorem getCSRFToken_spec {ε : Type} (host : String) (net : HttpCall → Except ε String)
    (st : FarmState) (accessToken : String) :
    (∀ c, st.csrfToken = some c →
      getCSRFToken host net st accessToken = ([], Except.ok (st, c))) ∧
    (∀ body, st.csrfToken = none →
      net (sessionTokenCall host accessToken) = Except.ok body →
      getCSRFToken host net st accessToken =
        ([sessionTokenCall host accessToken],
          Except.ok ({ st with csrfToken := some body }, body)) ∧
      ∀ (net2 : HttpCall → Except ε String) (accessToken2 : String),
        getCSRFToken host net2 { st with csrfToken := some body } accessToken2 =
          ([], Except.ok ({ st with csrfToken := some body }, body))) ∧
    (∀ e, st.csrfToken = none →
      net (sessionTokenCall host accessToken) = Except.error e →
      getCSRFToken host net st accessToken =
        ([sessionTokenCall host accessToken], Except.error e)) := by
  refine ⟨fun c hc => ?_, fun body hnone hok => ⟨?_, fun net2 accessToken2 => ?_⟩,
    fun e hnone herr => ?_⟩
  · simp [getCSRFToken, hc]
  · simp [getCSRFToken, hnone, hok]
  · simp [getCSRFToken]
  · simp [getCSRFToken, hnone, herr]

/-- Witness for C7: an empty cache and a server answering `csrf-tok`. -/
theorem getCSRFToken_spec_witness :
    getCSRFToken (ε := Unit) "h" (fun _ => Except.ok "csrf-tok")
        (FarmState.mk none none) "at" =
      ([sessionTokenCall "h" "at"],
        Except.ok ({ FarmState.mk none none with csrfToken := some "csrf-tok" },
          "csrf-tok")) :=
  ((getCSRFToken_spec "h" (fun _ => Except.ok "csrf-tok")
      (FarmState.mk none none) "at").2.1 "csrf-tok" rfl rfl).1

/-- Claim C8: `request` obtains the access token, then the CSRF token,
then issues exactly one main HTTP call carrying both tokens as headers
(`Authorization: Bearer` and `X-CSRF-Token`) and returns the parsed
response body; the serialized payload is the request body iff the method
is POST or PUT; an error at any step (token, CSRF fetch, main call) is
propagated unchanged with no retry, and later steps are not performed. -/
theorem request_spec {ε ρ : Type} (host : String) (refresh : Except ε OAuthToken)
    (csrfNet : HttpCall → Except ε String) (net : HttpCall → Except ε ρ)
    (st : FarmState) (endpoint method payload : String) :
    (∀ n e, getAccessToken refresh st = (n, Except.error e) →
      request host refresh csrfNet net st endpoint method payload =
        ((n, []), Except.error e)) ∧
    (∀ n st1 tok calls e, getAccessToken refresh st = (n, Except.ok (st1, tok)) →
      getCSRFToken host csrfNet st1 tok = (calls, Except.error e) →
      request host refresh csrfNet net st endpoint method payload =
        ((n, calls), Except.error (ClientError.network e))) ∧
    (∀ n st1 tok calls st2 c, getAccessToken refresh st = (n, Except.ok (st1, tok)) →
      getCSRFToken host csrfNet st1 tok = (calls, Except.ok (st2, c)) →
      (∀ d, net (mainCall host endpoint method payload tok c) = Except.ok d →
        request host refresh csrfNet net st endpoint method payload =
          ((n, calls ++ [mainCall host endpoint method payload tok c]),
            Except.ok (st2, d))) ∧
      (∀ e, net (mainCall host endpoint method payload tok c) = Except.error e →
        request host refresh csrfNet net st endpoint method payload =
          ((n, calls ++ [mainCall host endpoint method payload tok c]),
            Except.error (ClientError.network e))) ∧
      (mainCall host endpoint method payload tok c).auth = some ("Bearer " ++ tok) ∧
      (mainCall host endpoint method payload tok c).csrf = some c ∧
      (mainCall host endpoint method payload tok c).url = host ++ endpoint ∧
      (mainCall host endpoint method payload tok c).method = method ∧
      ((mainCall host endpoint method payload tok c).body = some payload ↔
        (method = "POST" ∨ method = "PUT"))) := by
  refine ⟨fun n e hacc => ?_, fun n st1 tok calls e hacc hcsrf => ?_,
    fun n st1 tok calls st2 c hacc hcsrf => ⟨fun d hnet => ?_, fun e hnet => ?_,
      rfl, rfl, rfl, rfl, ?_⟩⟩
  · simp [request, hacc]
  · simp [request, hacc, hcsrf]
  · simp [request, hacc, hcsrf, hnet]
  · simp [request, hacc, hcsrf, hnet]
  · by_cases hm : method = "POST" ∨ method = "PUT"
    · simp [mainCall, hm]
    · simp only [mainCall, if_neg hm]
      constructor
      · intro hcon
        exact absurd hcon (by simp)
      · intro hcon
        exact absurd hcon hm

/-- Witness for C8: a valid unexpired token, a cached CSRF token, a POST
with payload `p`, and a server answering `42`. -/
theorem request_spec_witness :
    request (ε := Unit) "h" (Except.error ()) (fun _ => Except.error ())
        (fun _ => Except.ok (42 : Nat))
        (FarmState.mk (some (OAuthToken.mk "tok" false)) (some "c")) "/log" "POST" "p" =
      ((0, [] ++ [mainCall "h" "/log" "POST" "p" "tok" "c"]),
        Except.ok (FarmState.mk (some (OAuthToken.mk "tok" false)) (some "c"), 42)) :=
  (((request_spec "h" (Except.error ()) (fun _ => Except.error ())
      (fun _ => Except.ok (42 : Nat))
      (FarmState.mk (some (OAuthToken.mk "tok" false)) (some "c"))
      "/log" "POST" "p").2.2 0
        (FarmState.mk (some (OAuthToken.mk "tok" false)) (some "c")) "tok" []
        (FarmState.mk (some (OAuthToken.mk "tok" false)) (some "c")) "c"
        rfl rfl).1) 42 rfl

/-! ## Area operations (src/index.js:186-218) and their vocabulary lookup -/

/-- A taxonomy vocabulary as listed by `/taxonomy_vocabulary.json`. -/
structure TVocab where
  machine_name : String
  vid : Nat
deriving DecidableEq

/-- The response of the vocabulary lookup request. -/
structure VocabResp where
  list : List TVocab
deriving DecidableEq

/-- `areaVid(vocab)` from src/index.js:117-119:
`vocab.list.find(voc => voc.machine_name === 'farm_areas').vid`.
`none` models the TypeError the source would raise by reading `.vid` of
`undefined` when no such vocabulary exists. -/
def areaVid (vocab : VocabResp) : Option Nat :=
  (vocab.list.find? (fun voc => voc.machine_name == "farm_areas")).map TVocab.vid

/-- `params(id)` from src/index.js:114: `id ? '/id.json' : '.json'`.
JS truthiness: `undefined` and the number `0` both take the `.json`
branch. -/
def params (id : Option Nat) : String :=
  match id with
  | some i => if i = 0 then ".json" else "/" ++ toString i ++ ".json"
  | none => ".json"

/-- Errors of an area operation: a propagated request error, or the
TypeError from `areaVid` when the `farm_areas` vocabulary is absent. -/
inductive AreaErr (ε : Type) where
  | network (e : ε)
  | typeError
deriving DecidableEq

/-- What an area operation does after its vocabulary lookup: delegate to
`request` with an endpoint and method, or to `requestAll` with a query. -/
inductive AreaNext where
  | request (endpoint : String) (method : String)
  | requestAllQ (query : String)
deriving DecidableEq

/-- The argument of `area.get`: a numeric id, or an options object with
defaults `{ page = null, type = '' }` (src/index.js:192-211). -/
inductive AreaGetOpts where
  | byId (tid : Nat)
  | byOpts (page : Option Nat) (ty : String)
deriving DecidableEq

/-- The lookup request every area operation issues first:
`request('/taxonomy_vocabulary.json')`, a GET. -/
def vocabLookup : String × String := ("/taxonomy_vocabulary.json", "GET")

/-- `farm.area.get` from src/index.js:192-212.  The first component is the
request issued first — always the vocabulary lookup, unconditionally, so
nothing is cached across calls; `vocabRes` is that lookup's outcome, and
the second component is what is done with it. -/
def areaGet (vocabRes : Except ε VocabResp) (opts : AreaGetOpts) :
    (String × String) × Except (AreaErr ε) AreaNext :=
  (vocabLookup,
    match vocabRes with
    | Except.error e => Except.error (AreaErr.network e)
    | Except.ok res =>
      match areaVid res with
      | none => Except.error AreaErr.typeError
      | some vid =>
        match opts with
        | AreaGetOpts.byId tid =>
          Except.ok (AreaNext.request
            ("/taxonomy_term.json?vocabulary=" ++ toString vid ++ "&tid=" ++ toString tid)
            "GET")
        | AreaGetOpts.byOpts page ty =>
          let typeParams := if ty ≠ "" then "area_type=" ++ ty else ""
          match page with
          | none => Except.ok (AreaNext.requestAllQ
              ("/taxonomy_term.json?vocabulary=" ++ toString vid ++ "&" ++ typeParams))
          | some p => Except.ok (AreaNext.request
              ("/taxonomy_term.json?vocabulary=" ++ toString vid ++ "&" ++ typeParams ++
                "&" ++ "page=" ++ toString p) "GET"))

/-- `farm.area.delete` from src/index.js:187-191. -/
def areaDelete (vocabRes : Except ε VocabResp) (id : Option Nat) :
    (String × String) × Except (AreaErr ε) AreaNext :=
  (vocabLookup,
    match vocabRes with
    | Except.error e => Except.error (AreaErr.network e)
    | Except.ok res =>
      match areaVid res with
      | none => Except.error AreaErr.typeError
      | some vid => Except.ok (AreaNext.request
          ("/taxonomy_term.json?vocabulary=" ++ toString vid ++ params id) "DELETE"))

/-- `farm.area.send` from src/index.js:213-217 (the payload does not
affect which requests are issued). -/
def areaSend (vocabRes : Except ε VocabResp) (id : Option Nat) :
    (String × String) × Except (AreaErr ε) AreaNext :=
  (vocabLookup,
    match vocabRes with
    | Except.error e => Except.error (AreaErr.network e)
    | Except.ok res =>
      match areaVid res with
      | none => Except.error AreaErr.typeError
      | some vid => Except.ok (AreaNext.request
          ("/taxonomy_term.json?vocabulary=" ++ toString vid ++ params id) "POST"))

/-- Claim C9: every area operation issues the GET
`/taxonomy_vocabulary.json` lookup first, on every call and for every
input (the functions consult no cache — the lookup is the first component
unconditionally); and `area.get(5)`, once the lookup resolved the
`farm_areas` vid, requests
`/taxonomy_term.json?vocabulary=vid&tid=5`. -/
theorem area_lookup_first {ε : Type} (vocabRes : Except ε VocabResp) (opts : AreaGetOpts)
    (id1 id2 : Option Nat) :
    (areaGet vocabRes opts).1 = ("/taxonomy_vocabulary.json", "GET") ∧
    (areaDelete vocabRes id1).1 = ("/taxonomy_vocabulary.json", "GET") ∧
    (areaSend vocabRes id2).1 = ("/taxonomy_vocabulary.json", "GET") ∧
    (∀ res vid, vocabRes = Except.ok res → areaVid res = some vid →
      (areaGet vocabRes (AreaGetOpts.byId 5)).2 =
        Except.ok (AreaNext.request
          ("/taxonomy_term.json?vocabulary=" ++ toString vid ++ "&tid=" ++ toString (5 : Nat))
          "GET")) := by
  refine ⟨rfl, rfl, rfl, fun res vid hres hvid => ?_⟩
  subst hres
  simp [areaGet, hvid]

/-- Witness for C9: a vocabulary response carrying `farm_areas` with
vid 7. -/
theorem area_lookup_first_witness :
    (areaGet (ε := Unit) (Except.ok (VocabResp.mk [TVocab.mk "farm_areas" 7]))
        (AreaGetOpts.byId 5)).2 =
      Except.ok (AreaNext.request
        ("/taxonomy_term.json?vocabulary=" ++ toString (7 : Nat) ++ "&tid=" ++
          toString (5 : Nat)) "GET") :=
  (area_lookup_first (Except.ok (VocabResp.mk [TVocab.mk "farm_areas" 7]))
      (AreaGetOpts.byId 5) none none).2.2.2
    (VocabResp.mk [TVocab.mk "farm_areas" 7]) 7 rfl rfl

/-! ## `log.get` dispatch (src/index.js:259-295) -/

/-- The argument of `log.get`: a numeric id, an array of ids (stringified
for the query), or an options object `{ page, type, log_owner, done }`
(`owner` is `log_owner`, `dne` is `done`). -/
inductive LogGetOpts where
  | byId (id : Nat)
  | byIds (ids : List String)
  | byQuery (page : Option String) (ty : Option (List String))
      (owner : Option String) (dne : Option String)
deriving DecidableEq

/-- What `log.get` returns, by branch.  The three `promise...`
constructors are promises: a delegated `request`, `batchRequest` or
`requestAll` call.  `plainEmptyList` is the one non-promise result: the
plain object with an empty `list`, returned synchronously, with no HTTP
request issued. -/
inductive LogGetAction where
  | promiseRequest (endpoint : String)
  | promiseBatch (name : String) (ids : List String) (endpoint : String)
  | plainEmptyList
  | promiseRequestAll (query : String)
deriving DecidableEq

/-- `farm.log.get(opts)` from src/index.js:259-295: a numeric id requests
`/log/id.json`; an array dispatches to `batchRequest('id', opts,
'/log.json?')` when non-empty and returns the plain `{ list: [] }`
otherwise; an options object builds the query with the query builder
(`type` array, then `done`, then `log_owner` — ramda `compose` applies
right-to-left) and delegates to `request` when `page` is defined, else to
`requestAll`. -/
def logGet : LogGetOpts → LogGetAction
  | LogGetOpts.byId n => LogGetAction.promiseRequest ("/log/" ++ toString n ++ ".json")
  | LogGetOpts.byIds ids =>
    if ids.length > 0 then LogGetAction.promiseBatch "id" ids "/log.json?"
    else LogGetAction.plainEmptyList
  | LogGetOpts.byQuery page ty owner dne =>
    let query := appendParam "log_owner" owner
      (appendParam "done" dne (appendArrayOfParams "type" ty "/log.json?"))
    match page with
    | some p => LogGetAction.promiseRequest (appendParam "page" (some p) query)
    | none => LogGetAction.promiseRequestAll query

/-- Claim C10: `log.get([])` returns the plain `{ list: [] }` object —
synchronously, with no HTTP request — and this is the only branch of
`log.get` whose result is not a promise; `batchRequest` is dispatched to
exactly for the non-empty arrays. -/
theorem logGet_empty_ids_spec :
    logGet (LogGetOpts.byIds []) = LogGetAction.plainEmptyList ∧
    (∀ ids, ids ≠ [] → logGet (LogGetOpts.byIds ids) =
      LogGetAction.promiseBatch "id" ids "/log.json?") ∧
    (∀ opts, logGet opts = LogGetAction.plainEmptyList ↔ opts = LogGetOpts.byIds []) ∧
    (∀ opts name ids endpoint,
      logGet opts = LogGetAction.promiseBatch name ids endpoint → ids ≠ []) := by
  refine ⟨rfl, fun ids hne => ?_, fun opts => ?_, fun opts name ids endpoint h => ?_⟩
  · cases ids with
    | nil => exact absurd rfl hne
    | cons a l => simp [logGet]
  · cases opts with
    | byId n => simp [logGet]
    | byIds ids =>
      cases ids with
      | nil => simp [logGet]
      | cons a l => simp [logGet]
    | byQuery page ty owner dne =>
      cases page with
      | none => simp [logGet]
      | some p => simp [logGet]
  · cases opts with
    | byId n => simp [logGet] at h
    | byIds ids2 =>
      cases ids2 with
      | nil => simp [logGet] at h
      | cons a l =>
        simp [logGet] at h
        rw [← h.2.1]
        exact List.cons_ne_nil a l
    | byQuery page ty owner dne =>
      cases page with
      | none => simp [logGet] at h
      | some p => simp [logGet] at h

/-- Witness for C10: a one-element id array dispatches to
`batchRequest`. -/
theorem logGet_empty_ids_spec_witness :
    logGet (LogGetOpts.byIds ["7"]) = LogGetAction.promiseBatch "id" ["7"] "/log.json?" :=
  logGet_empty_ids_spec.2.1 ["7"] (by decide)

end FarmOS
